import Mathlib

/-!
Shallow embedding of gatsby-plugin-typesense (src/gatsby-node.js).

The plugin reindexes a built static site into a Typesense collection using a
blue/green swap: discover the old generation behind a stable alias, fetch its
synonyms, create a fresh generation, populate it from the HTML files, replay
the synonyms, repoint the alias, and delete the old generation.

Modelling conventions:
* An HTML file is abstracted to its ordered list of harvested marker pairs
  (attribute value of data-typesense-field, element text), which is exactly
  the data the cheerio loop in indexContentInTypesense consumes.
* JavaScript values that occur in this program are strings, numbers
  (possibly NaN), booleans and arrays of those scalars; numbers are modelled
  as exact rationals (IEEE rounding is irrelevant to the specified behavior).
* A JS object used as a document is an insertion-ordered association list
  with unique keys (setVal replaces in place, as JS assignment does).
* The Typesense client is an environment of fallible operations; a run
  produces the ordered trace of API calls it issued plus an outcome.
  reporter.panic (which terminates the Gatsby process) is the panic outcome;
  reporter.warn / reporter.error only log, so the run continues.
-/

namespace GatsbyTypesense

/-- A JS number as used by this program: an exact value or NaN
(from a failed parseInt / parseFloat). -/
inductive JsNum where
  | val (q : Rat)
  | nan
deriving DecidableEq

/-- A scalar JS value produced by typeCastValue. -/
inductive JSPrim where
  | str (s : String)
  | num (n : JsNum)
  | bool (b : Bool)
deriving DecidableEq

/-- A JS value stored in a typesenseDocument slot: a scalar, or an array of
scalars built by the array-field push branch (in this program arrays only
ever hold coerced scalar values). -/
inductive JSVal where
  | prim (p : JSPrim)
  | arr (l : List JSPrim)
deriving DecidableEq

/-- JS truthiness for the values that occur in this program:
NaN, 0, the empty string and false are falsy; arrays are always truthy. -/
def truthy : JSVal → Bool
  | .prim (.str s) => s != ""
  | .prim (.num (.val q)) => q != 0
  | .prim (.num .nan) => false
  | .prim (.bool b) => b
  | .arr _ => true

/-- JS `x || dflt` on a possibly-absent slot value. -/
def jsOr (x : Option JSVal) (dflt : JSVal) : JSVal :=
  match x with
  | some v => if truthy v then v else dflt
  | none => dflt

/-- JS String.prototype.trim: drop whitespace from both ends. -/
def jsTrim (s : String) : String :=
  ⟨((s.data.dropWhile (fun c => c.isWhitespace)).reverse.dropWhile
      (fun c => c.isWhitespace)).reverse⟩

/-- JS String.prototype.toLowerCase on the ASCII text this program
compares (only the literal "false" matters). -/
def jsToLower (s : String) : String :=
  ⟨s.data.map (fun c => c.toLower)⟩

/-- Does the text start with the pattern? -/
def matchesFront : List Char → List Char → Bool
  | [], _ => true
  | _ :: _, [] => false
  | p :: ps, c :: cs => p == c && matchesFront ps cs

/-- Does the pattern occur in the text at any position? -/
def containsAux (pat : List Char) : List Char → Bool
  | [] => matchesFront pat []
  | c :: cs => matchesFront pat (c :: cs) || containsAux pat cs

/-- Decimal value of a digit list. -/
def digitsVal (ds : List Char) : Nat :=
  ds.foldl (fun a c => a * 10 + (c.toNat - 48)) 0

/-- JS parseInt on the strings this program feeds it: trim whitespace,
optional sign, then the longest leading run of decimal digits; NaN if that
run is empty. (The hex 0x prefix and non-decimal radices are elided: no
claim depends on them.) -/
def parseIntJS (s : String) : JsNum :=
  let body : Int × List Char :=
    match (jsTrim s).data with
    | '-' :: r => (-1, r)
    | '+' :: r => (1, r)
    | r => (1, r)
  let ds := body.2.takeWhile (fun c => c.isDigit)
  if ds.isEmpty then JsNum.nan
  else JsNum.val ((body.1 * (digitsVal ds : Int) : Int) : Rat)

/-- JS parseFloat on the strings this program feeds it: trim, optional sign,
decimal digits with an optional fractional part; NaN when no digit was read.
(Exponent notation is elided: no claim depends on it.) -/
def parseFloatJS (s : String) : JsNum :=
  let body : Rat × List Char :=
    match (jsTrim s).data with
    | '-' :: r => (-1, r)
    | '+' :: r => (1, r)
    | r => (1, r)
  let ip := body.2.takeWhile (fun c => c.isDigit)
  let rest := body.2.drop ip.length
  match rest with
  | '.' :: r =>
    let fp := r.takeWhile (fun c => c.isDigit)
    if ip.isEmpty && fp.isEmpty then JsNum.nan
    else JsNum.val (body.1 * ((digitsVal ip : Rat) + (digitsVal fp : Rat) / ((10 : Rat) ^ fp.length)))
  | _ => if ip.isEmpty then JsNum.nan else JsNum.val (body.1 * (digitsVal ip : Rat))

/-- JS String.prototype.includes for a non-empty pattern, as used by the
string-contains checks on type names ("int", "float", "bool", "[]"). -/
def jsIncludes (s pat : String) : Bool :=
  containsAux pat.data s.data

/-- One field definition of the collection schema: { name, type }. -/
structure FieldDef where
  name : String
  type : String
deriving DecidableEq

/-- typeCastValue from src/gatsby-node.js: coerce the raw element text per
the declared field type, by substring checks on the type name in source
order (int, then float, then bool, else pass the string through). -/
def typeCastValue (fieldDefinition : FieldDef) (attributeValue : String) : JSPrim :=
  if jsIncludes fieldDefinition.type "int" then .num (parseIntJS attributeValue)
  else if jsIncludes fieldDefinition.type "float" then .num (parseFloatJS attributeValue)
  else if jsIncludes fieldDefinition.type "bool" then
    if jsToLower attributeValue == "false" then .bool false
    else if attributeValue == "0" then .bool false
    else .bool (jsTrim attributeValue != "")
  else .str attributeValue

/-- A typesenseDocument: a JS object as an insertion-ordered association
list with unique keys. -/
abbrev Doc := List (String × JSVal)

/-- JS property read doc[k]. -/
def getVal : Doc → String → Option JSVal
  | [], _ => none
  | (k, v) :: rest, k' => if k = k' then some v else getVal rest k'

/-- JS property write doc[k] = v: replaces an existing binding in place,
otherwise appends a new one. -/
def setVal : Doc → String → JSVal → Doc
  | [], k, v => [(k, v)]
  | (k0, v0) :: rest, k, v =>
    if k0 = k then (k, v) :: rest else (k0, v0) :: setVal rest k v

/-- Modelled from the spec: utils.isObjectEmpty from lib/utils (not under
src/) tests whether the document object has no keys; the spec reads "if
zero marker attributes were found anywhere in the document, the result is
skip". -/
def isObjectEmpty (doc : Doc) : Bool :=
  doc.isEmpty

/-- Schema field lookup: newCollectionSchema.fields.find(f => f.name === attributeName). -/
def findFieldDefinition (fields : List FieldDef) (attributeName : String) : Option FieldDef :=
  fields.find? (fun f => f.name == attributeName)

/-- The cheerio .each loop of indexContentInTypesense: for each marker pair,
look the field up in the schema (reporter.panic on an unknown field, which
is fatal), then either push onto the per-field array (types containing
"[]") or overwrite the scalar slot. The array branch mirrors
doc[an] = doc[an] || [] followed by push: an absent slot starts a fresh
array; a prior value under the same name is always an array, because the
same name always resolves to the same array-typed field definition. -/
def harvest (fields : List FieldDef) :
    List (String × String) → Doc → Except String Doc
  | [], doc => .ok doc
  | (attributeName, attributeValue) :: rest, doc =>
    match findFieldDefinition fields attributeName with
    | none =>
      .error ("[Typesense] Field \"" ++ attributeName ++
        "\" is not defined in the collection schema")
    | some fieldDefinition =>
      if jsIncludes fieldDefinition.type "[]" then
        let prev : List JSPrim :=
          match getVal doc attributeName with
          | some (.arr l) => l
          | _ => []
        harvest fields rest
          (setVal doc attributeName
            (.arr (prev ++ [typeCastValue fieldDefinition attributeValue])))
      else
        harvest fields rest
          (setVal doc attributeName
            (.prim (typeCastValue fieldDefinition attributeValue)))

/-- The document-building part of indexContentInTypesense: harvest all
marker pairs, skip the page when no marker was found (ok none, after a
warning), otherwise inject page_path and the page_priority_score default
(JS || 10) and return the completed document. An unknown field is the
error case (reporter.panic). -/
def extractDocument (fields : List FieldDef) (wwwPath : String)
    (markers : List (String × String)) : Except String (Option Doc) :=
  match harvest fields markers [] with
  | .error e => .error e
  | .ok typesenseDocument =>
    if isObjectEmpty typesenseDocument then .ok none
    else
      let d1 := setVal typesenseDocument "page_path" (.prim (.str wwwPath))
      let d2 := setVal d1 "page_priority_score"
        (jsOr (getVal d1 "page_priority_score") (.prim (.num (.val 10))))
      .ok (some d2)

/-- A synonym rule { id, synonyms } as retrieved from a collection. -/
structure Synonym where
  id : String
  synonyms : List String
deriving DecidableEq

/-- The collection schema configured by the caller: name, fields, and any
further schema properties (extra), all of which the JS object spread in
onPostBuild copies into the new generation's schema. -/
structure CollectionSchema where
  name : String
  fields : List FieldDef
  extra : List (String × String)
deriving DecidableEq

/-- One Typesense API call issued by a run. -/
inductive Op where
  | aliasRetrieve (aliasName : String)
  | synonymsRetrieve (coll : String)
  | collectionCreate (schema : CollectionSchema)
  | documentCreate (coll : String) (doc : Doc)
  | synonymUpsert (coll : String) (id : String) (syns : List String)
  | aliasUpsert (aliasName : String) (coll : String)
  | collectionDelete (coll : String)
deriving DecidableEq

/-- The Typesense server as an environment of fallible operations. -/
structure Env where
  aliasRetrieve : String → Except Unit String
  synonymsRetrieve : String → Except Unit (List Synonym)
  collectionCreate : CollectionSchema → Except Unit Unit
  documentCreate : String → Doc → Except Unit Unit
  synonymUpsert : String → String → List String → Except Unit Unit
  aliasUpsert : String → String → Except Unit Unit
  collectionDelete : String → Except Unit Unit

/-- Outcome of a run: normal completion, or termination through
reporter.panic. -/
inductive Outcome where
  | success
  | panic (msg : String)
deriving DecidableEq

/-- getExistingSynonyms from src/gatsby-node.js: retrieve the synonyms of a
collection; any retrieval failure is caught, logged with console.warn, and
turned into the empty list. -/
def getExistingSynonyms (env : Env) (collectionName : String) :
    List Op × List Synonym :=
  match env.synonymsRetrieve collectionName with
  | .ok response => ([Op.synonymsRetrieve collectionName], response)
  | .error _ => ([Op.synonymsRetrieve collectionName], [])

/-- upsertSynonyms from src/gatsby-node.js: replay each rule onto the
target collection under its original id; a per-rule failure is caught and
logged with console.warn, and the loop continues with the remaining
rules. -/
def upsertSynonyms (env : Env) (collectionName : String) :
    List Synonym → List Op
  | [] => []
  | synonym :: rest =>
    match env.synonymUpsert collectionName synonym.id synonym.synonyms with
    | .ok _ => Op.synonymUpsert collectionName synonym.id synonym.synonyms ::
        upsertSynonyms env collectionName rest
    | .error _ => Op.synonymUpsert collectionName synonym.id synonym.synonyms ::
        upsertSynonyms env collectionName rest

/-- The discovery prologue of onPostBuild: retrieve the alias of the base
collection name; on failure (alias never existed) proceed with no old
collection and no synonyms (the catch only logs a warning). When the alias
resolved to a truthy (non-empty) name, also fetch that generation's
synonyms best-effort. -/
def discoverOldCollection (env : Env) (aliasName : String) :
    List Op × Option String × List Synonym :=
  match env.aliasRetrieve aliasName with
  | .error _ => ([Op.aliasRetrieve aliasName], none, [])
  | .ok old =>
    if old != "" then
      let r := getExistingSynonyms env old
      (Op.aliasRetrieve aliasName :: r.1, some old, r.2)
    else ([Op.aliasRetrieve aliasName], some old, [])

/-- The per-file body of the population loop: build the document from the
file's markers; skip silently-with-warning when no marker was present;
otherwise issue the document create, turning a create failure into a fatal
error (reporter.panic). Returns the ops issued and the fatal error, if
any. -/
def indexContentInTypesense (env : Env) (newCollectionSchema : CollectionSchema)
    (wwwPath : String) (markers : List (String × String)) :
    List Op × Option String :=
  match extractDocument newCollectionSchema.fields wwwPath markers with
  | .error e => ([], some e)
  | .ok none => ([], none)
  | .ok (some typesenseDocument) =>
    match env.documentCreate newCollectionSchema.name typesenseDocument with
    | .ok _ => ([Op.documentCreate newCollectionSchema.name typesenseDocument], none)
    | .error _ => ([Op.documentCreate newCollectionSchema.name typesenseDocument],
        some "[Typesense] Could not create document")

/-- The sequential for-loop over the discovered HTML files: each file is
indexed in order; the first fatal error (reporter.panic) stops the loop and
the run. -/
def indexAllFiles (env : Env) (newCollectionSchema : CollectionSchema) :
    List (String × List (String × String)) → List Op × Option String
  | [] => ([], none)
  | (wwwPath, markers) :: rest =>
    let r := indexContentInTypesense env newCollectionSchema wwwPath markers
    match r.2 with
    | some e => (r.1, some e)
    | none =>
      let rr := indexAllFiles env newCollectionSchema rest
      (r.1 ++ rr.1, rr.2)

/-- onPostBuild from src/gatsby-node.js. newCollectionName stands for the
value of generateNewCollectionName(collectionSchema) (the default lives in
lib/utils, not under src/, and is caller-overridable); files stands for the
recursively discovered HTML files, each given by its site path and its
harvested marker pairs.

Mirrors the source order: discover the old generation and its synonyms
(failures tolerated), create the new generation under a spread copy of the
schema with the fresh name (failure is reporter.panic: the run aborts),
populate file by file (a failure is reporter.panic), replay synonyms when
any were fetched, upsert the alias (a failure is only reporter.error: the
run continues), and finally, whenever an old generation was discovered,
delete it (the delete is NOT conditioned on the alias upsert having
succeeded; its own failure is also only logged). -/
def onPostBuild (env : Env) (collectionSchema : CollectionSchema)
    (newCollectionName : String)
    (files : List (String × List (String × String))) : List Op × Outcome :=
  let newCollectionSchema : CollectionSchema :=
    { collectionSchema with name := newCollectionName }
  let disc := discoverOldCollection env collectionSchema.name
  match env.collectionCreate newCollectionSchema with
  | .error _ =>
    (disc.1 ++ [Op.collectionCreate newCollectionSchema],
      .panic ("[Typesense] Could not create collection " ++ newCollectionName))
  | .ok _ =>
    let pop := indexAllFiles env newCollectionSchema files
    match pop.2 with
    | some e =>
      (disc.1 ++ [Op.collectionCreate newCollectionSchema] ++ pop.1, .panic e)
    | none =>
      let synOps :=
        if disc.2.2.length > 0 then
          upsertSynonyms env newCollectionName disc.2.2
        else []
      let aliasOps :=
        match env.aliasUpsert collectionSchema.name newCollectionName with
        | .ok _ => [Op.aliasUpsert collectionSchema.name newCollectionName]
        | .error _ => [Op.aliasUpsert collectionSchema.name newCollectionName]
      let delOps :=
        match disc.2.1 with
        | some old =>
          if old != "" then
            match env.collectionDelete old with
            | .ok _ => [Op.collectionDelete old]
            | .error _ => [Op.collectionDelete old]
          else []
        | none => []
      (disc.1 ++ [Op.collectionCreate newCollectionSchema] ++ pop.1 ++
        synOps ++ aliasOps ++ delOps, .success)

/-- A server on which every call succeeds and no alias exists yet
(first-run steady state); used to exercise concrete runs. -/
def envFirstRun : Env where
  aliasRetrieve := fun _ => .error ()
  synonymsRetrieve := fun _ => .ok []
  collectionCreate := fun _ => .ok ()
  documentCreate := fun _ _ => .ok ()
  synonymUpsert := fun _ _ _ => .ok ()
  aliasUpsert := fun _ _ => .ok ()
  collectionDelete := fun _ => .ok ()

/-- A server with an existing alias docs -> docs_old on which everything
succeeds except the alias upsert (the swap step fails). -/
def envSwapFail : Env where
  aliasRetrieve := fun _ => .ok "docs_old"
  synonymsRetrieve := fun _ => .ok []
  collectionCreate := fun _ => .ok ()
  documentCreate := fun _ _ => .ok ()
  synonymUpsert := fun _ _ _ => .ok ()
  aliasUpsert := fun _ _ => .error ()
  collectionDelete := fun _ => .ok ()

/-- A server with an existing alias docs -> docs_old on which creating a
collection fails (simulated network error). -/
def envCreateFail : Env where
  aliasRetrieve := fun _ => .ok "docs_old"
  synonymsRetrieve := fun _ => .ok []
  collectionCreate := fun _ => .error ()
  documentCreate := fun _ _ => .ok ()
  synonymUpsert := fun _ _ _ => .ok ()
  aliasUpsert := fun _ _ => .ok ()
  collectionDelete := fun _ => .ok ()

/-- A server on which synonym retrieval and every synonym upsert fail. -/
def envSynFail : Env where
  aliasRetrieve := fun _ => .ok "docs_old"
  synonymsRetrieve := fun _ => .error ()
  collectionCreate := fun _ => .ok ()
  documentCreate := fun _ _ => .ok ()
  synonymUpsert := fun _ _ _ => .error ()
  aliasUpsert := fun _ _ => .ok ()
  collectionDelete := fun _ => .ok ()

/-! Basic lemmas about the document object. -/

theorem getVal_setVal_self (doc : Doc) (k : String) (v : JSVal) :
    getVal (setVal doc k v) k = some v := by
  induction doc with
  | nil => simp [setVal, getVal]
  | cons p rest ih =>
    obtain ⟨k0, v0⟩ := p
    by_cases h : k0 = k
    · simp [setVal, h, getVal]
    · simp [setVal, h, getVal, ih]

theorem getVal_setVal_ne (doc : Doc) (k k' : String) (v : JSVal) (h : k ≠ k') :
    getVal (setVal doc k v) k' = getVal doc k' := by
  induction doc with
  | nil => simp [setVal, getVal, h]
  | cons p rest ih =>
    obtain ⟨k0, v0⟩ := p
    by_cases h0 : k0 = k
    · subst h0; simp [setVal, getVal, h]
    · simp [setVal, h0, getVal, ih]

/-- C5: for a field whose declared type is boolean (type name "bool" or
"bool[]"), typeCastValue returns false exactly when the raw value
case-insensitively equals "false", or equals the literal "0", or has empty
trimmed text; it returns true for every other value (whose trimmed text is
then non-empty). -/
theorem typeCastValue_boolean (fd : FieldDef) (v : String)
    (h : fd.type = "bool" ∨ fd.type = "bool[]") :
    typeCastValue fd v =
      .bool (!(jsToLower v == "false") && !(v == "0") && (jsTrim v != "")) := by
  unfold typeCastValue
  rcases h with h | h <;> rw [h] <;>
  · rw [if_neg (by decide), if_neg (by decide), if_pos (by decide)]
    by_cases h1 : jsToLower v = "false"
    · simp [h1]
    · by_cases h2 : v = "0"
      · simp [h1, h2]
      · simp [h1, h2]

/-- Witness for C5 at a concrete input: "FALSE" coerces to false for a
boolean field. -/
theorem typeCastValue_boolean_witness :
    typeCastValue ⟨"published", "bool"⟩ "FALSE" = JSPrim.bool false := by
  rw [typeCastValue_boolean ⟨"published", "bool"⟩ "FALSE" (Or.inl rfl)]
  decide

/-- C7: a document with zero marker attributes is skipped: extraction
returns the skip outcome (ok none, never a partial document), and the
per-file indexing step issues no document create and reports no error. -/
theorem zero_markers_skip (env : Env) (sch : CollectionSchema) (wwwPath : String) :
    extractDocument sch.fields wwwPath [] = Except.ok none ∧
    indexContentInTypesense env sch wwwPath [] = ([], none) :=
  ⟨rfl, rfl⟩

/-- C2 counterexample: a harvested page_priority_score of 0 (declared
int32, text "0") is NOT preserved: the JS-falsy value is replaced by the
default 10 in the returned document. -/
theorem priority_score_zero_not_preserved :
    typeCastValue ⟨"page_priority_score", "int32"⟩ "0" = JSPrim.num (.val 0) ∧
    extractDocument [⟨"page_priority_score", "int32"⟩] "/x/"
        [("page_priority_score", "0")] =
      Except.ok (some [("page_priority_score", JSVal.prim (.num (.val 10))),
        ("page_path", JSVal.prim (.str "/x/"))]) ∧
    JSVal.prim (.num (JsNum.val 10)) ≠ JSVal.prim (.num (JsNum.val 0)) := by
  refine ⟨by decide, rfl, by decide⟩

/-- C2 (amended): page_priority_score defaults to 10 when absent from the
harvested fields, and a harvested value is preserved exactly when it is
JS-truthy; a JS-falsy harvested value (0, NaN, false or the empty string)
is likewise replaced by the default 10 (the JS || operator). -/
theorem priority_score_default (fields : List FieldDef) (wwwPath : String)
    (markers : List (String × String)) (doc0 d : Doc)
    (hh : harvest fields markers [] = Except.ok doc0)
    (hex : extractDocument fields wwwPath markers = Except.ok (some d)) :
    (getVal doc0 "page_priority_score" = none →
      getVal d "page_priority_score" = some (JSVal.prim (.num (.val 10)))) ∧
    (∀ v, getVal doc0 "page_priority_score" = some v → truthy v = true →
      getVal d "page_priority_score" = some v) ∧
    (∀ v, getVal doc0 "page_priority_score" = some v → truthy v = false →
      getVal d "page_priority_score" = some (JSVal.prim (.num (.val 10)))) := by
  cases he : isObjectEmpty doc0 with
  | true =>
    exfalso
    simp [extractDocument, hh, he] at hex
  | false =>
    have hd : setVal (setVal doc0 "page_path" (.prim (.str wwwPath)))
        "page_priority_score"
        (jsOr (getVal (setVal doc0 "page_path" (.prim (.str wwwPath)))
            "page_priority_score")
          (.prim (.num (.val 10)))) = d := by
      simpa [extractDocument, hh, he] using hex
    have hpp : getVal (setVal doc0 "page_path" (.prim (.str wwwPath)))
        "page_priority_score" = getVal doc0 "page_priority_score" :=
      getVal_setVal_ne doc0 "page_path" "page_priority_score" _ (by decide)
    refine ⟨?_, ?_, ?_⟩
    · intro h0
      rw [← hd, getVal_setVal_self, hpp, h0]
      rfl
    · intro v hv ht
      rw [← hd, getVal_setVal_self, hpp, hv]
      simp [jsOr, ht]
    · intro v hv ht
      rw [← hd, getVal_setVal_self, hpp, hv]
      simp [jsOr, ht]

/-- Witness for C2 (amended) at the concrete falsy input: the harvested 0
is replaced by 10 in the returned document. -/
theorem priority_score_default_witness :
    getVal [("page_priority_score", JSVal.prim (.num (.val 10))),
      ("page_path", JSVal.prim (.str "/x/"))] "page_priority_score" =
      some (JSVal.prim (.num (.val 10))) :=
  (priority_score_default [⟨"page_priority_score", "int32"⟩] "/x/"
      [("page_priority_score", "0")]
      [("page_priority_score", JSVal.prim (typeCastValue ⟨"page_priority_score", "int32"⟩ "0"))]
      [("page_priority_score", JSVal.prim (.num (.val 10))),
        ("page_path", JSVal.prim (.str "/x/"))]
      rfl rfl).2.2
    (JSVal.prim (typeCastValue ⟨"page_priority_score", "int32"⟩ "0")) rfl (by decide)

/-! Lemmas about the harvesting loop. -/

theorem harvest_error_of_unknown (fields : List FieldDef) :
    ∀ (markers : List (String × String)) (doc : Doc),
    (∃ m ∈ markers, findFieldDefinition fields m.1 = none) →
    ∃ e, harvest fields markers doc = Except.error e := by
  intro markers
  induction markers with
  | nil => intro doc h; simp at h
  | cons m rest ih =>
    intro doc h
    obtain ⟨an, av⟩ := m
    cases hfd : findFieldDefinition fields an with
    | none => exact ⟨_, by unfold harvest; rw [hfd]⟩
    | some fd =>
      have hrest : ∃ m ∈ rest, findFieldDefinition fields m.1 = none := by
        rcases h with ⟨m, hm, hnone⟩
        rcases List.mem_cons.mp hm with rfl | hm
        · rw [hfd] at hnone; exact absurd hnone (by simp)
        · exact ⟨m, hm, hnone⟩
      by_cases harr : jsIncludes fd.type "[]" = true
      · obtain ⟨e, he⟩ :=
          ih (setVal doc an (.arr ((match getVal doc an with
            | some (.arr l) => l
            | _ => []) ++ [typeCastValue fd av]))) hrest
        exact ⟨e, by unfold harvest; rw [hfd]; simp only [harr, if_true]; exact he⟩
      · rw [Bool.not_eq_true] at harr
        obtain ⟨e, he⟩ := ih (setVal doc an (.prim (typeCastValue fd av))) hrest
        exact ⟨e, by unfold harvest; rw [hfd]; simp only [harr, Bool.false_eq_true,
          if_false]; exact he⟩

/-- C4: an unknown field in the markup (a marker naming a field that the
schema does not declare) makes document extraction fail with an error, and
that error is fatal to the whole run (reporter.panic): a run that reaches
such a file panics instead of skipping the field or the document. -/
theorem unknown_field_is_fatal (s : CollectionSchema) (wwwPath : String)
    (markers : List (String × String))
    (h : ∃ m ∈ markers, findFieldDefinition s.fields m.1 = none) :
    (∃ e, extractDocument s.fields wwwPath markers = Except.error e) ∧
    (∀ env n rest, env.collectionCreate { s with name := n } = Except.ok () →
      ∃ e, (onPostBuild env s n ((wwwPath, markers) :: rest)).2 = Outcome.panic e) := by
  obtain ⟨e, he⟩ := harvest_error_of_unknown s.fields markers [] h
  have hext : extractDocument s.fields wwwPath markers = Except.error e := by
    unfold extractDocument; rw [he]
  refine ⟨⟨e, hext⟩, ?_⟩
  intro env n rest hcreate
  refine ⟨e, ?_⟩
  have hidx : indexContentInTypesense env { s with name := n } wwwPath markers
      = ([], some e) := by
    unfold indexContentInTypesense
    rw [show ({ s with name := n } : CollectionSchema).fields = s.fields from rfl, hext]
  have hall : indexAllFiles env { s with name := n } ((wwwPath, markers) :: rest)
      = ([], some e) := by
    unfold indexAllFiles; rw [hidx]
  simp only [onPostBuild, hcreate, hall]

/-- Witness for C4 at a concrete input: a marker naming the undeclared
field "tags" fails extraction and panics the run. -/
theorem unknown_field_is_fatal_witness :
    (∃ e, extractDocument [⟨"title", "string"⟩] "/p/" [("tags", "go")]
      = Except.error e) ∧
    (∃ e, (onPostBuild envFirstRun ⟨"docs", [⟨"title", "string"⟩], []⟩ "docs_x"
      [("/p/", [("tags", "go")])]).2 = Outcome.panic e) := by
  have h := unknown_field_is_fatal ⟨"docs", [⟨"title", "string"⟩], []⟩ "/p/"
    [("tags", "go")] ⟨("tags", "go"), by simp, rfl⟩
  exact ⟨h.1, h.2 envFirstRun "docs_x" [] rfl⟩

theorem extractDocument_ok_inversion (fields : List FieldDef) (wwwPath : String)
    (markers : List (String × String)) (d : Doc)
    (hex : extractDocument fields wwwPath markers = Except.ok (some d)) :
    ∃ doc0, harvest fields markers [] = Except.ok doc0 ∧ isObjectEmpty doc0 = false ∧
      setVal (setVal doc0 "page_path" (.prim (.str wwwPath))) "page_priority_score"
        (jsOr (getVal (setVal doc0 "page_path" (.prim (.str wwwPath)))
            "page_priority_score")
          (.prim (.num (.val 10)))) = d := by
  rcases hh : harvest fields markers [] with e | doc0
  · simp [extractDocument, hh] at hex
  · cases he : isObjectEmpty doc0 with
    | true => simp [extractDocument, hh, he] at hex
    | false => exact ⟨doc0, rfl, he, by simpa [extractDocument, hh, he] using hex⟩

theorem harvest_array_extend (fields : List FieldDef) (name : String) (f : FieldDef)
    (hf : findFieldDefinition fields name = some f)
    (harr : jsIncludes f.type "[]" = true) :
    ∀ (markers : List (String × String)) (doc0 d : Doc) (l0 : List JSPrim),
    harvest fields markers doc0 = Except.ok d →
    getVal doc0 name = some (.arr l0) →
    getVal d name = some (.arr (l0 ++
      (markers.filter (fun m => m.1 == name)).map (fun m => typeCastValue f m.2))) := by
  intro markers
  induction markers with
  | nil =>
    intro doc0 d l0 hh hv
    unfold harvest at hh
    injection hh with h
    subst h
    simp [hv]
  | cons m rest ih =>
    intro doc0 d l0 hh hv
    obtain ⟨an, av⟩ := m
    unfold harvest at hh
    by_cases han : an = name
    · subst han
      rw [hf] at hh
      simp only [harr, if_true, hv] at hh
      have h2 := ih (setVal doc0 an (.arr (l0 ++ [typeCastValue f av]))) d
        (l0 ++ [typeCastValue f av]) hh (getVal_setVal_self _ _ _)
      rw [h2]
      simp [List.filter_cons, List.append_assoc]
    · cases hfd : findFieldDefinition fields an with
      | none => rw [hfd] at hh; exact Except.noConfusion hh
      | some fd =>
        rw [hfd] at hh
        by_cases hb : jsIncludes fd.type "[]" = true
        · simp only [hb, if_true] at hh
          have h2 := ih _ d l0 hh
            (by rw [getVal_setVal_ne doc0 an name _ han]; exact hv)
          rw [h2]
          simp [List.filter_cons, beq_iff_eq, han]
        · rw [Bool.not_eq_true] at hb
          simp only [hb, Bool.false_eq_true, if_false] at hh
          have h2 := ih _ d l0 hh
            (by rw [getVal_setVal_ne doc0 an name _ han]; exact hv)
          rw [h2]
          simp [List.filter_cons, beq_iff_eq, han]

theorem harvest_array_start (fields : List FieldDef) (name : String) (f : FieldDef)
    (hf : findFieldDefinition fields name = some f)
    (harr : jsIncludes f.type "[]" = true) :
    ∀ (markers : List (String × String)) (doc0 d : Doc),
    harvest fields markers doc0 = Except.ok d →
    getVal doc0 name = none →
    markers.filter (fun m => m.1 == name) ≠ [] →
    getVal d name = some (.arr
      ((markers.filter (fun m => m.1 == name)).map (fun m => typeCastValue f m.2))) := by
  intro markers
  induction markers with
  | nil => intro doc0 d _ _ hne; simp at hne
  | cons m rest ih =>
    intro doc0 d hh hv hne
    obtain ⟨an, av⟩ := m
    unfold harvest at hh
    by_cases han : an = name
    · subst han
      rw [hf] at hh
      simp only [harr, if_true, hv] at hh
      have h2 := harvest_array_extend fields an f hf harr rest _ d
        [typeCastValue f av] hh (getVal_setVal_self _ _ _)
      rw [h2]
      simp [List.filter_cons]
    · cases hfd : findFieldDefinition fields an with
      | none => rw [hfd] at hh; exact Except.noConfusion hh
      | some fd =>
        rw [hfd] at hh
        have hne2 : rest.filter (fun m => m.1 == name) ≠ [] := by
          simpa [List.filter_cons, beq_iff_eq, han] using hne
        by_cases hb : jsIncludes fd.type "[]" = true
        · simp only [hb, if_true] at hh
          have h2 := ih _ d hh
            (by rw [getVal_setVal_ne doc0 an name _ han]; exact hv) hne2
          rw [h2]
          simp [List.filter_cons, beq_iff_eq, han]
        · rw [Bool.not_eq_true] at hb
          simp only [hb, Bool.false_eq_true, if_false] at hh
          have h2 := ih _ d hh
            (by rw [getVal_setVal_ne doc0 an name _ han]; exact hv) hne2
          rw [h2]
          simp [List.filter_cons, beq_iff_eq, han]

/-- C6 counterexample: with N = 0 marker elements naming an array-typed
field, the extracted document does not map that field to a list of zero
coerced values: the field is simply absent. -/
theorem array_field_zero_markers_absent :
    extractDocument [⟨"tags", "string[]"⟩, ⟨"title", "string"⟩] "/p/" [("title", "x")] =
      Except.ok (some [("title", JSVal.prim (.str "x")),
        ("page_path", JSVal.prim (.str "/p/")),
        ("page_priority_score", JSVal.prim (.num (.val 10)))]) ∧
    getVal [("title", JSVal.prim (.str "x")),
        ("page_path", JSVal.prim (.str "/p/")),
        ("page_priority_score", JSVal.prim (.num (.val 10)))] "tags" = none :=
  ⟨rfl, rfl⟩

/-- C6 (amended): for a field declared with an array type (other than the
implicit page_path, which is overwritten by injection) and a document
containing at least one marker element naming it, the extracted document
maps the field to the ordered list of exactly the coerced values of those
elements, in document order; with zero such elements the field is absent
rather than an empty list. -/
theorem array_field_collects_all (fields : List FieldDef) (f : FieldDef)
    (name wwwPath : String) (markers : List (String × String)) (d : Doc)
    (hf : findFieldDefinition fields name = some f)
    (harr : jsIncludes f.type "[]" = true)
    (hpp : name ≠ "page_path")
    (hne : markers.filter (fun m => m.1 == name) ≠ [])
    (hex : extractDocument fields wwwPath markers = Except.ok (some d)) :
    getVal d name = some (.arr ((markers.filter (fun m => m.1 == name)).map
      (fun m => typeCastValue f m.2))) := by
  obtain ⟨doc0, hh, _, hd⟩ := extractDocument_ok_inversion fields wwwPath markers d hex
  have h0 : getVal doc0 name = some (.arr
      ((markers.filter (fun m => m.1 == name)).map (fun m => typeCastValue f m.2))) :=
    harvest_array_start fields name f hf harr markers [] doc0 hh rfl hne
  have h1 : getVal (setVal doc0 "page_path" (.prim (.str wwwPath))) name
      = getVal doc0 name :=
    getVal_setVal_ne doc0 "page_path" name _ (Ne.symm hpp)
  by_cases hps : name = "page_priority_score"
  · subst hps
    rw [← hd, getVal_setVal_self, h1, h0]
    simp [jsOr, truthy]
  · rw [← hd, getVal_setVal_ne _ "page_priority_score" name _ (Ne.symm hps), h1, h0]

/-- Witness for C6 (amended): the spec scenario, two elements marked tags
containing go and rust, yields the ordered two-element list. -/
theorem array_field_collects_all_witness :
    getVal [("tags", JSVal.arr [.str "go", .str "rust"]),
      ("page_path", JSVal.prim (.str "/p/")),
      ("page_priority_score", JSVal.prim (.num (.val 10)))] "tags" =
      some (JSVal.arr [.str "go", .str "rust"]) :=
  array_field_collects_all [⟨"title", "string"⟩, ⟨"tags", "string[]"⟩]
    ⟨"tags", "string[]"⟩ "tags" "/p/" [("tags", "go"), ("tags", "rust")]
    [("tags", JSVal.arr [.str "go", .str "rust"]),
      ("page_path", JSVal.prim (.str "/p/")),
      ("page_priority_score", JSVal.prim (.num (.val 10)))]
    rfl rfl (by decide) (by decide) rfl

theorem harvest_scalar_track (fields : List FieldDef) (name : String) (f : FieldDef)
    (hf : findFieldDefinition fields name = some f)
    (hsc : jsIncludes f.type "[]" = false) :
    ∀ (markers : List (String × String)) (doc0 d : Doc),
    harvest fields markers doc0 = Except.ok d →
    getVal d name = markers.foldl
      (fun acc m => if m.1 == name then some (JSVal.prim (typeCastValue f m.2)) else acc)
      (getVal doc0 name) := by
  intro markers
  induction markers with
  | nil =>
    intro doc0 d hh
    unfold harvest at hh
    injection hh with h
    subst h
    rfl
  | cons m rest ih =>
    intro doc0 d hh
    obtain ⟨an, av⟩ := m
    unfold harvest at hh
    by_cases han : an = name
    · subst han
      rw [hf] at hh
      simp only [hsc, Bool.false_eq_true, if_false] at hh
      have h2 := ih _ d hh
      rw [h2, getVal_setVal_self]
      simp [List.foldl_cons]
    · cases hfd : findFieldDefinition fields an with
      | none => rw [hfd] at hh; exact Except.noConfusion hh
      | some fd =>
        rw [hfd] at hh
        by_cases hb : jsIncludes fd.type "[]" = true
        · simp only [hb, if_true] at hh
          have h2 := ih _ d hh
          rw [h2, getVal_setVal_ne doc0 an name _ han]
          simp [List.foldl_cons, beq_iff_eq, han]
        · rw [Bool.not_eq_true] at hb
          simp only [hb, Bool.false_eq_true, if_false] at hh
          have h2 := ih _ d hh
          rw [h2, getVal_setVal_ne doc0 an name _ han]
          simp [List.foldl_cons, beq_iff_eq, han]

theorem foldl_pick_no_match (f : FieldDef) (name : String) :
    ∀ (l : List (String × String)) (acc : Option JSVal),
    (∀ m ∈ l, m.1 ≠ name) →
    l.foldl (fun acc m => if m.1 == name then some (JSVal.prim (typeCastValue f m.2)) else acc)
      acc = acc := by
  intro l
  induction l with
  | nil => intro acc _; rfl
  | cons m rest ih =>
    intro acc h
    obtain ⟨an, av⟩ := m
    have h1 : an ≠ name := h (an, av) (List.mem_cons_self _ _)
    have hcond : ((an, av).1 == name) = false := by simp [h1]
    simp only [List.foldl_cons, hcond, Bool.false_eq_true, if_false]
    exact ih acc (fun m hm => h m (List.mem_cons_of_mem _ hm))

/-- C9 counterexample: the implicit page_path field is overwritten with the
caller-supplied path after the loop, so a document with two markers naming
the scalar field page_path does not end up holding the coerced value of the
last one. -/
theorem scalar_page_path_overwritten :
    extractDocument [⟨"page_path", "string"⟩] "/real/"
        [("page_path", "a"), ("page_path", "b")] =
      Except.ok (some [("page_path", JSVal.prim (.str "/real/")),
        ("page_priority_score", JSVal.prim (.num (.val 10)))]) ∧
    typeCastValue ⟨"page_path", "string"⟩ "b" = .str "b" ∧
    JSVal.prim (.str "/real/") ≠ JSVal.prim (.str "b") :=
  ⟨rfl, rfl, by decide⟩

/-- C9 (amended): for a field declared with a scalar (non-array) type,
other than the injected implicit fields page_path and page_priority_score,
a document whose markers for that field end with value v leaves the field
holding the coerced value of that last occurrence: each later occurrence
overwrote the earlier one. -/
theorem scalar_field_last_wins (fields : List FieldDef) (f : FieldDef)
    (name wwwPath v : String) (pre post : List (String × String)) (d : Doc)
    (hf : findFieldDefinition fields name = some f)
    (hsc : jsIncludes f.type "[]" = false)
    (hpp : name ≠ "page_path") (hps : name ≠ "page_priority_score")
    (hpost : ∀ m ∈ post, m.1 ≠ name)
    (hex : extractDocument fields wwwPath (pre ++ (name, v) :: post)
      = Except.ok (some d)) :
    getVal d name = some (JSVal.prim (typeCastValue f v)) := by
  obtain ⟨doc0, hh, _, hd⟩ :=
    extractDocument_ok_inversion fields wwwPath (pre ++ (name, v) :: post) d hex
  have h0 := harvest_scalar_track fields name f hf hsc (pre ++ (name, v) :: post) [] doc0 hh
  rw [List.foldl_append, List.foldl_cons] at h0
  simp only [beq_self_eq_true, if_true] at h0
  rw [foldl_pick_no_match f name post _ hpost] at h0
  have h1 : getVal (setVal doc0 "page_path" (.prim (.str wwwPath))) name
      = getVal doc0 name :=
    getVal_setVal_ne doc0 "page_path" name _ (Ne.symm hpp)
  rw [← hd, getVal_setVal_ne _ "page_priority_score" name _ (Ne.symm hps), h1, h0]

/-- Witness for C9 (amended): with markers title = a then title = b, the
extracted document holds b. -/
theorem scalar_field_last_wins_witness :
    getVal [("title", JSVal.prim (.str "b")),
      ("page_path", JSVal.prim (.str "/p/")),
      ("page_priority_score", JSVal.prim (.num (.val 10)))] "title" =
      some (JSVal.prim (.str "b")) :=
  scalar_field_last_wins [⟨"title", "string"⟩] ⟨"title", "string"⟩ "title" "/p/" "b"
    [("title", "a")] []
    [("title", JSVal.prim (.str "b")),
      ("page_path", JSVal.prim (.str "/p/")),
      ("page_priority_score", JSVal.prim (.num (.val 10)))]
    rfl rfl (by decide) (by decide) (by simp) rfl

/-! Lemmas about the orchestrator and the synonym helpers. -/

theorem getExistingSynonyms_ops (env : Env) (c : String) :
    (getExistingSynonyms env c).1 = [Op.synonymsRetrieve c] := by
  cases h : env.synonymsRetrieve c <;> simp [getExistingSynonyms, h]

theorem upsertSynonyms_eq_map (env : Env) (c : String) :
    ∀ syns : List Synonym,
    upsertSynonyms env c syns = syns.map (fun sy => Op.synonymUpsert c sy.id sy.synonyms) := by
  intro syns
  induction syns with
  | nil => rfl
  | cons sy rest ih =>
    cases h : env.synonymUpsert c sy.id sy.synonyms <;>
      simp [upsertSynonyms, h, ih]

theorem discover_ops_shape (env : Env) (a : String) :
    ∀ o ∈ (discoverOldCollection env a).1,
      (∃ x, o = Op.aliasRetrieve x) ∨ ∃ x, o = Op.synonymsRetrieve x := by
  intro o ho
  rcases h : env.aliasRetrieve a with e | old
  · simp [discoverOldCollection, h] at ho
    exact Or.inl ⟨a, ho⟩
  · by_cases hb : (old != "") = true
    · simp [discoverOldCollection, h, hb, getExistingSynonyms_ops] at ho
      rcases ho with ho | ho
      · exact Or.inl ⟨a, ho⟩
      · exact Or.inr ⟨old, ho⟩
    · simp [discoverOldCollection, h, hb] at ho
      exact Or.inl ⟨a, ho⟩

theorem indexContent_ops_shape (env : Env) (sch : CollectionSchema) (p : String)
    (mk : List (String × String)) :
    ∀ o ∈ (indexContentInTypesense env sch p mk).1, ∃ c dd, o = Op.documentCreate c dd := by
  intro o ho
  rcases hex : extractDocument sch.fields p mk with e | od
  · simp [indexContentInTypesense, hex] at ho
  · cases od with
    | none => simp [indexContentInTypesense, hex] at ho
    | some dd =>
      cases hdc : env.documentCreate sch.name dd with
      | ok u =>
        simp [indexContentInTypesense, hex, hdc] at ho
        exact ⟨_, _, ho⟩
      | error u =>
        simp [indexContentInTypesense, hex, hdc] at ho
        exact ⟨_, _, ho⟩

theorem indexAllFiles_ops_shape (env : Env) (sch : CollectionSchema) :
    ∀ files, ∀ o ∈ (indexAllFiles env sch files).1, ∃ c dd, o = Op.documentCreate c dd := by
  intro files
  induction files with
  | nil => intro o ho; simp [indexAllFiles] at ho
  | cons fl rest ih =>
    intro o ho
    obtain ⟨p, mk⟩ := fl
    simp only [indexAllFiles] at ho
    rcases hr : (indexContentInTypesense env sch p mk).2 with _ | e
    · simp only [hr] at ho
      rcases List.mem_append.mp ho with hm | hm
      · exact indexContent_ops_shape env sch p mk o hm
      · exact ih o hm
    · simp only [hr] at ho
      exact indexContent_ops_shape env sch p mk o ho

theorem onPostBuild_ops_shape (env : Env) (s : CollectionSchema) (n : String)
    (files : List (String × List (String × String))) :
    ∀ o ∈ (onPostBuild env s n files).1,
      (∃ x, o = Op.aliasRetrieve x) ∨ (∃ x, o = Op.synonymsRetrieve x) ∨
      o = Op.collectionCreate { s with name := n } ∨
      (∃ c dd, o = Op.documentCreate c dd) ∨
      (∃ i t, o = Op.synonymUpsert n i t) ∨
      o = Op.aliasUpsert s.name n ∨
      (∃ c, o = Op.collectionDelete c) := by
  intro o ho
  cases hc : env.collectionCreate { s with name := n } with
  | error u =>
    simp only [onPostBuild, hc] at ho
    rcases List.mem_append.mp ho with hm | hm
    · rcases discover_ops_shape env s.name o hm with h | h
      · exact Or.inl h
      · exact Or.inr (Or.inl h)
    · exact Or.inr (Or.inr (Or.inl (List.mem_singleton.mp hm)))
  | ok u =>
    cases hp : (indexAllFiles env { s with name := n } files).2 with
    | some e =>
      simp only [onPostBuild, hc, hp] at ho
      rcases List.mem_append.mp ho with hm | hm
      · rcases List.mem_append.mp hm with hm2 | hm2
        · rcases discover_ops_shape env s.name o hm2 with h | h
          · exact Or.inl h
          · exact Or.inr (Or.inl h)
        · exact Or.inr (Or.inr (Or.inl (List.mem_singleton.mp hm2)))
      · exact Or.inr (Or.inr (Or.inr (Or.inl
          (indexAllFiles_ops_shape env { s with name := n } files o hm))))
    | none =>
      simp only [onPostBuild, hc, hp] at ho
      rcases List.mem_append.mp ho with h5 | h6
      · rcases List.mem_append.mp h5 with h4 | hali
        · rcases List.mem_append.mp h4 with h3 | hsyn
          · rcases List.mem_append.mp h3 with h2 | hpop
            · rcases List.mem_append.mp h2 with h1 | hcr
              · rcases discover_ops_shape env s.name o h1 with h | h
                · exact Or.inl h
                · exact Or.inr (Or.inl h)
              · exact Or.inr (Or.inr (Or.inl (List.mem_singleton.mp hcr)))
            · exact Or.inr (Or.inr (Or.inr (Or.inl
                (indexAllFiles_ops_shape env { s with name := n } files o hpop))))
          · by_cases hlen : (discoverOldCollection env s.name).2.2.length > 0
            · rw [if_pos hlen, upsertSynonyms_eq_map] at hsyn
              rcases List.mem_map.mp hsyn with ⟨sy, _, hsy⟩
              exact Or.inr (Or.inr (Or.inr (Or.inr (Or.inl ⟨sy.id, sy.synonyms, hsy.symm⟩))))
            · rw [if_neg hlen] at hsyn
              simp at hsyn
        · have h7 : o = Op.aliasUpsert s.name n := by
            cases hau : env.aliasUpsert s.name n <;> simp only [hau] at hali <;>
              exact List.mem_singleton.mp hali
          exact Or.inr (Or.inr (Or.inr (Or.inr (Or.inr (Or.inl h7)))))
      · rcases hold : (discoverOldCollection env s.name).2.1 with _ | old
        · simp only [hold] at h6
          simp at h6
        · simp only [hold] at h6
          by_cases hb : (old != "") = true
          · rw [if_pos hb] at h6
            have h7 : o = Op.collectionDelete old := by
              cases hdel : env.collectionDelete old <;> simp only [hdel] at h6 <;>
                exact List.mem_singleton.mp h6
            exact Or.inr (Or.inr (Or.inr (Or.inr (Or.inr (Or.inr ⟨old, h7⟩)))))
          · rw [if_neg hb] at h6
            simp at h6

/-- C8: synonym carryover is best-effort end to end: a failed synonym
retrieval yields the empty list instead of failing the run, and replaying
rules issues an upsert for every rule regardless of the server's per-rule
outcomes (a failing rule is logged and skipped, the rest are still
attempted). -/
theorem synonym_carryover_best_effort (env : Env) (cOld cNew : String)
    (syns : List Synonym) :
    (env.synonymsRetrieve cOld = Except.error () →
      getExistingSynonyms env cOld = ([Op.synonymsRetrieve cOld], [])) ∧
    upsertSynonyms env cNew syns
      = syns.map (fun sy => Op.synonymUpsert cNew sy.id sy.synonyms) := by
  refine ⟨fun h => ?_, upsertSynonyms_eq_map env cNew syns⟩
  unfold getExistingSynonyms
  rw [h]

/-- Witness for C8: on a server where synonym retrieval and every synonym
upsert fail, the fetch returns the empty list and both rules are still
attempted. -/
theorem synonym_carryover_best_effort_witness :
    getExistingSynonyms envSynFail "docs_old" = ([Op.synonymsRetrieve "docs_old"], []) ∧
    upsertSynonyms envSynFail "docs_new" [⟨"syn1", ["a", "b"]⟩, ⟨"syn2", ["c"]⟩]
      = [Op.synonymUpsert "docs_new" "syn1" ["a", "b"],
        Op.synonymUpsert "docs_new" "syn2" ["c"]] := by
  have h := synonym_carryover_best_effort envSynFail "docs_old" "docs_new"
    [⟨"syn1", ["a", "b"]⟩, ⟨"syn2", ["c"]⟩]
  exact ⟨h.1 rfl, h.2⟩

/-- C3: when creating the new collection fails, the run aborts fatally
(reporter.panic): no document create is issued, the alias is never
upserted, no synonym upsert happens and no collection is deleted — the
only calls before the abort are the alias/synonym reads and the failed
create itself. -/
theorem create_failure_aborts (env : Env) (s : CollectionSchema) (n : String)
    (files : List (String × List (String × String)))
    (h : env.collectionCreate { s with name := n } = Except.error ()) :
    (onPostBuild env s n files).2
        = Outcome.panic ("[Typesense] Could not create collection " ++ n) ∧
    (∀ c dd, Op.documentCreate c dd ∉ (onPostBuild env s n files).1) ∧
    (∀ a c, Op.aliasUpsert a c ∉ (onPostBuild env s n files).1) ∧
    (∀ c i t, Op.synonymUpsert c i t ∉ (onPostBuild env s n files).1) ∧
    (∀ c, Op.collectionDelete c ∉ (onPostBuild env s n files).1) := by
  have htr : onPostBuild env s n files
      = ((discoverOldCollection env s.name).1
          ++ [Op.collectionCreate { s with name := n }],
        Outcome.panic ("[Typesense] Could not create collection " ++ n)) := by
    simp only [onPostBuild, h]
  refine ⟨by rw [htr], ?_, ?_, ?_, ?_⟩
  · intro c dd hmem
    rw [htr] at hmem
    rcases List.mem_append.mp hmem with hm | hm
    · rcases discover_ops_shape env s.name _ hm with ⟨x, hx⟩ | ⟨x, hx⟩ <;> simp at hx
    · simp at hm
  · intro a c hmem
    rw [htr] at hmem
    rcases List.mem_append.mp hmem with hm | hm
    · rcases discover_ops_shape env s.name _ hm with ⟨x, hx⟩ | ⟨x, hx⟩ <;> simp at hx
    · simp at hm
  · intro c i t hmem
    rw [htr] at hmem
    rcases List.mem_append.mp hmem with hm | hm
    · rcases discover_ops_shape env s.name _ hm with ⟨x, hx⟩ | ⟨x, hx⟩ <;> simp at hx
    · simp at hm
  · intro c hmem
    rw [htr] at hmem
    rcases List.mem_append.mp hmem with hm | hm
    · rcases discover_ops_shape env s.name _ hm with ⟨x, hx⟩ | ⟨x, hx⟩ <;> simp at hx
    · simp at hm

/-- Witness for C3 at a concrete input: with a failing collection create,
the run panics and neither the alias upsert nor the old-collection delete
is ever issued. -/
theorem create_failure_aborts_witness :
    (onPostBuild envCreateFail ⟨"docs", [⟨"title", "string"⟩], []⟩ "docs_new"
        [("/about/", [("title", "About")])]).2
      = Outcome.panic "[Typesense] Could not create collection docs_new" ∧
    Op.aliasUpsert "docs" "docs_new" ∉
      (onPostBuild envCreateFail ⟨"docs", [⟨"title", "string"⟩], []⟩ "docs_new"
        [("/about/", [("title", "About")])]).1 ∧
    Op.collectionDelete "docs_old" ∉
      (onPostBuild envCreateFail ⟨"docs", [⟨"title", "string"⟩], []⟩ "docs_new"
        [("/about/", [("title", "About")])]).1 := by
  have h := create_failure_aborts envCreateFail ⟨"docs", [⟨"title", "string"⟩], []⟩
    "docs_new" [("/about/", [("title", "About")])] rfl
  exact ⟨h.1, h.2.2.1 "docs" "docs_new", h.2.2.2.2 "docs_old"⟩

/-- C1 (code behavior at the failing input): in a run where the alias
docs -> docs_old exists, the new generation is created and populated, and
the alias upsert FAILS, the code still issues the delete of the old
collection docs_old and reports overall success: the delete block is not
conditioned on the swap having succeeded. -/
theorem failed_swap_still_deletes_old :
    envSwapFail.aliasUpsert "docs" "docs_new" = Except.error () ∧
    Op.collectionDelete "docs_old" ∈
      (onPostBuild envSwapFail ⟨"docs", [⟨"title", "string"⟩], []⟩ "docs_new"
        [("/about/", [("title", "About")])]).1 ∧
    (onPostBuild envSwapFail ⟨"docs", [⟨"title", "string"⟩], []⟩ "docs_new"
        [("/about/", [("title", "About")])]).2 = Outcome.success :=
  ⟨rfl, by decide, by decide⟩

/-- C10: the schema sent to the collection-create call is the caller
schema with only the name replaced by the generated collection name (the
fields list and all other schema properties are identical), and the later
alias upsert still uses the caller schema's original name: the caller
schema is copied (object spread), not mutated. -/
theorem new_schema_frame (env : Env) (s : CollectionSchema) (n : String)
    (files : List (String × List (String × String))) :
    (∀ sch, Op.collectionCreate sch ∈ (onPostBuild env s n files).1 →
      sch.name = n ∧ sch.fields = s.fields ∧ sch.extra = s.extra) ∧
    (∀ a c, Op.aliasUpsert a c ∈ (onPostBuild env s n files).1 →
      a = s.name ∧ c = n) := by
  constructor
  · intro sch hm
    rcases onPostBuild_ops_shape env s n files _ hm with
      ⟨x, hx⟩ | ⟨x, hx⟩ | hx | ⟨c, dd, hx⟩ | ⟨i, t, hx⟩ | hx | ⟨c, hx⟩
    · simp at hx
    · simp at hx
    · injection hx with h2
      subst h2
      exact ⟨rfl, rfl, rfl⟩
    · simp at hx
    · simp at hx
    · simp at hx
    · simp at hx
  · intro a c hm
    rcases onPostBuild_ops_shape env s n files _ hm with
      ⟨x, hx⟩ | ⟨x, hx⟩ | hx | ⟨c2, dd, hx⟩ | ⟨i, t, hx⟩ | hx | ⟨c2, hx⟩
    · simp at hx
    · simp at hx
    · simp at hx
    · simp at hx
    · simp at hx
    · injection hx with h1 h2
      exact ⟨h1, h2⟩
    · simp at hx

/-- Witness for C10 at a concrete run: the issued create call carries the
caller schema with the fresh name, and its fields list is the caller
schema's own. -/
theorem new_schema_frame_witness :
    Op.collectionCreate ⟨"docs_new", [⟨"title", "string"⟩],
        [("default_sorting_field", "page_priority_score")]⟩ ∈
      (onPostBuild envFirstRun ⟨"docs", [⟨"title", "string"⟩],
          [("default_sorting_field", "page_priority_score")]⟩ "docs_new"
        [("/about/", [("title", "About")])]).1 ∧
    (⟨"docs_new", [⟨"title", "string"⟩],
        [("default_sorting_field", "page_priority_score")]⟩ : CollectionSchema).fields
      = (⟨"docs", [⟨"title", "string"⟩],
        [("default_sorting_field", "page_priority_score")]⟩ : CollectionSchema).fields := by
  have hmem : Op.collectionCreate ⟨"docs_new", [⟨"title", "string"⟩],
      [("default_sorting_field", "page_priority_score")]⟩ ∈
      (onPostBuild envFirstRun ⟨"docs", [⟨"title", "string"⟩],
          [("default_sorting_field", "page_priority_score")]⟩ "docs_new"
        [("/about/", [("title", "About")])]).1 := by decide
  refine ⟨hmem, ?_⟩
  have h := (new_schema_frame envFirstRun ⟨"docs", [⟨"title", "string"⟩],
      [("default_sorting_field", "page_priority_score")]⟩ "docs_new"
    [("/about/", [("title", "About")])]).1 _ hmem
  exact h.2.1

end GatsbyTypesense
